import Mathlib

/-!
Verification of the textinput image-overlay service.

The repository is a Node/Express service that composites text onto a base
image.  It contains three evolutionary variants of the same engine:
`src/server.js` (plain text overlay), `src/unnamed/part_001` (legacy
variant) and `src/unnamed/part_002` (background/filter/border-capable
variant).  JavaScript strings are embedded as `List Char`, JS numbers used
as sizes as `Nat`, text-measurement widths (floats produced by
`ctx.measureText`) as an abstract function into `Rat`, and every external
effect (HTTP fetch, JSON parse, image decode, canvas encode) as an explicit
oracle argument, so that all definitions are executable.
-/

/-- JavaScript strings are embedded as lists of characters. -/
abbrev JSStr := List Char

deriving instance DecidableEq for Except

/-- JS `str.split(sep)` on the character-list embedding:
splitting `"a/b"` on `'/'` gives `["a","b"]`, splitting `""` gives `[""]`. -/
def splitChar (sep : Char) : List Char → List (List Char)
  | [] => [[]]
  | c :: cs =>
    if c = sep then [] :: splitChar sep cs
    else
      match splitChar sep cs with
      | [] => [[c]]
      | g :: gs => (c :: g) :: gs

/-- JS `Array.prototype.join(sep)` for an array of strings:
`[].join = ""`, `["a","b"].join('/') = "a/b"`. -/
def joinChar (sep : Char) : List (List Char) → List Char
  | [] => []
  | [a] => a
  | a :: b :: rest => a ++ sep :: joinChar sep (b :: rest)

/-- Number of occurrences of a character in a string. -/
def countChar (c : Char) (s : List Char) : Nat :=
  (s.filter (fun d => d == c)).length

/-! ## Path Descriptor Resolver (`extractPathInfo`, server.js lines 196-236;
the identical function appears in part_001 and part_002). -/

/-- Result record of `extractPathInfo`. -/
structure PathInfo where
  bucketName : JSStr
  imagePath : JSStr
  configDir : JSStr
  folderName : JSStr
  configKey : JSStr
deriving Repr, DecidableEq

/-- The two `throw new Error(...)` sites of `extractPathInfo`.  The Korean
message text is not modelled, only which check failed. -/
inductive PathError where
  | tooFewSegments
  | badImagePath
deriving Repr, DecidableEq

/-- `if (path.startsWith('/')) path = path.substring(1)`. -/
def stripLeadingSlash (p : JSStr) : JSStr :=
  if (['/'] : List Char).isPrefixOf p then p.drop 1 else p

/-- `path.split('/').filter(Boolean)`: split on `'/'` and drop empty
segments (empty strings are falsy in JS). -/
def pathSegments (p : JSStr) : List JSStr :=
  (splitChar '/' (stripLeadingSlash p)).filter (fun s => !s.isEmpty)

/-- `extractPathInfo(urlPathname)`: derive bucket, image path, config
directory, folder name and config key from the inbound URL path. -/
def extractPathInfo (urlPathname : JSStr) : Except PathError PathInfo :=
  let pathParts := pathSegments urlPathname
  if pathParts.length < 3 then .error .tooFewSegments
  else
    let bucketName := pathParts.headD []
    let imagePath := joinChar '/' (pathParts.drop 1)
    let imagePathParts := splitChar '/' imagePath
    if imagePathParts.length < 2 then .error .badImagePath
    else
      let configDir := joinChar '/' (imagePathParts.dropLast.dropLast)
      let folderName := imagePathParts.getD (imagePathParts.length - 2) []
      let configKey := configDir ++ '/' :: folderName ++ (".json").data
      .ok ⟨bucketName, imagePath, configDir, folderName, configKey⟩

/-! ## Resource URL construction (`buildResourceUrl`, server.js lines
241-248) and the base-URL selection chain
`req.query.baseUrl || process.env.BASE_URL || BASE_URL`
(server.js lines 13 and 347). -/

/-- JS `a || b` for an optional string value: `undefined` and the empty
string are falsy. -/
def jsOrStr (v : Option JSStr) (d : JSStr) : JSStr :=
  match v with
  | some s => if s.isEmpty then d else s
  | none => d

/-- Hard-coded default `BASE_URL` fallback (server.js line 13). -/
def defaultBaseUrl : JSStr := ("https://o.nfarmer.uk").data

/-- The per-request base URL: query `baseUrl`, else the `BASE_URL`
environment value, else the hard-coded default. -/
def chooseBaseUrl (queryBase : Option JSStr) (envBase : Option JSStr) : JSStr :=
  jsOrStr queryBase (jsOrStr envBase defaultBaseUrl)

/-- `buildResourceUrl(baseUrl, bucketName, resourcePath)`. -/
def buildResourceUrl (baseUrl bucketName resourcePath : JSStr) : JSStr :=
  if ("http://").data.isPrefixOf baseUrl || ("https://").data.isPrefixOf baseUrl then
    baseUrl ++ '/' :: bucketName ++ '/' :: resourcePath
  else
    ("https://").data ++ baseUrl ++ '/' :: bucketName ++ '/' :: resourcePath

/-! ## Text decoding (`decodeText`, server.js lines 94-99; identical in
part_001 and part_002):
`decodeURIComponent(String(text)).replace(/_/g,' ').replace(/%0A/gi,'\n')`.
`decodeURIComponent` is a JS builtin; it is modelled below by percent-
decoding the string to UTF-8 bytes and re-decoding those bytes, returning
`none` where the builtin would throw `URIError`. -/

/-- Numeric value of a hexadecimal digit. -/
def hexVal (c : Char) : Option Nat :=
  let n := c.toNat
  if 48 ≤ n ∧ n ≤ 57 then some (n - 48)
  else if 65 ≤ n ∧ n ≤ 70 then some (n - 55)
  else if 97 ≤ n ∧ n ≤ 102 then some (n - 87)
  else none

/-- UTF-8 encoding of one code point. -/
def charUtf8Bytes (c : Char) : List Nat :=
  let n := c.toNat
  if n < 0x80 then [n]
  else if n < 0x800 then [0xC0 + n / 64, 0x80 + n % 64]
  else if n < 0x10000 then
    [0xE0 + n / 4096, 0x80 + (n / 64) % 64, 0x80 + n % 64]
  else
    [0xF0 + n / 262144, 0x80 + (n / 4096) % 64, 0x80 + (n / 64) % 64,
      0x80 + n % 64]

/-- Percent-decode a string to a byte sequence: each `%XX` escape yields
one byte, every literal character contributes its UTF-8 bytes; a `%` not
followed by two hex digits is malformed (`none`). -/
def uriBytes : List Char → Option (List Nat)
  | [] => some []
  | '%' :: a :: b :: rest =>
    match hexVal a, hexVal b with
    | some hi, some lo => (uriBytes rest).map (fun bs => (16 * hi + lo) :: bs)
    | _, _ => none
  | '%' :: _ => none
  | c :: rest => (uriBytes rest).map (fun bs => charUtf8Bytes c ++ bs)

/-- Decode a UTF-8 byte sequence back to characters; `none` on malformed
sequences (where `decodeURIComponent` throws). -/
def utf8Decode : List Nat → Option (List Char)
  | [] => some []
  | b :: bs =>
    if b < 0x80 then
      (utf8Decode bs).map (fun cs => Char.ofNat b :: cs)
    else if 0xC2 ≤ b ∧ b ≤ 0xDF then
      match bs with
      | b1 :: bs1 =>
        if 0x80 ≤ b1 ∧ b1 ≤ 0xBF then
          (utf8Decode bs1).map
            (fun cs => Char.ofNat ((b - 0xC0) * 64 + (b1 - 0x80)) :: cs)
        else none
      | [] => none
    else if 0xE0 ≤ b ∧ b ≤ 0xEF then
      match bs with
      | b1 :: b2 :: bs2 =>
        if (0x80 ≤ b1 ∧ b1 ≤ 0xBF) ∧ (0x80 ≤ b2 ∧ b2 ≤ 0xBF) then
          (utf8Decode bs2).map
            (fun cs =>
              Char.ofNat ((b - 0xE0) * 4096 + (b1 - 0x80) * 64 + (b2 - 0x80)) :: cs)
        else none
      | _ => none
    else if 0xF0 ≤ b ∧ b ≤ 0xF4 then
      match bs with
      | b1 :: b2 :: b3 :: bs3 =>
        if (0x80 ≤ b1 ∧ b1 ≤ 0xBF) ∧ (0x80 ≤ b2 ∧ b2 ≤ 0xBF) ∧
            (0x80 ≤ b3 ∧ b3 ≤ 0xBF) then
          (utf8Decode bs3).map
            (fun cs =>
              Char.ofNat ((b - 0xF0) * 262144 + (b1 - 0x80) * 4096 +
                (b2 - 0x80) * 64 + (b3 - 0x80)) :: cs)
        else none
      | _ => none
    else none

/-- The modelled `decodeURIComponent`. -/
def uriDecode (s : List Char) : Option (List Char) :=
  (uriBytes s).bind utf8Decode

/-- `.replace(/%0A/gi, '\n')`: global, case-insensitive, left-to-right. -/
def replacePct0A : List Char → List Char
  | '%' :: '0' :: 'A' :: rest => '\n' :: replacePct0A rest
  | '%' :: '0' :: 'a' :: rest => '\n' :: replacePct0A rest
  | c :: rest => c :: replacePct0A rest
  | [] => []

/-- `decodeText(text)`: `''` for falsy input, otherwise URI-decode, then
replace every underscore with a space, then replace literal `%0A` with a
newline.  `none` models the `URIError` thrown on malformed escapes. -/
def decodeText (text : Option JSStr) : Option JSStr :=
  match text with
  | none => some []
  | some t =>
    if t.isEmpty then some []
    else
      (uriDecode t).map (fun d =>
        replacePct0A (d.map (fun c => if c = '_' then ' ' else c)))

/-! ## Greedy word-wrap (server.js `drawTextOnCanvas` lines 129-155; the
same loop appears verbatim inside part_002 `drawElementOnCanvas` lines
334-360, with the content width `textWidth = w - padding.left -
padding.right` in place of `w`).  `ctx.measureText(s).width` is a float
computed by the canvas backend; it is embedded as an abstract
`measure : JSStr → Rat` argument. -/

/-- One iteration of the `words.forEach` accumulation: the accumulator is
`(measuredLines so far, currentLine)`. -/
def wrapStep (measure : JSStr → Rat) (w : Rat)
    (acc : List JSStr × JSStr) (word : JSStr) : List JSStr × JSStr :=
  let testLine := acc.2 ++ (if acc.2.isEmpty then [] else [' ']) ++ word
  if measure testLine > w ∧ acc.2 ≠ [] then (acc.1 ++ [acc.2], word)
  else (acc.1, testLine)

/-- Wrap one hard line: split on spaces, accumulate, flush the final
current line if non-empty. -/
def wrapHardLine (measure : JSStr → Rat) (w : Rat) (line : JSStr) : List JSStr :=
  let words := splitChar ' ' line
  let r := words.foldl (wrapStep measure w) ([], [])
  r.1 ++ (if r.2 ≠ [] then [r.2] else [])

/-- Processing of one hard line in the `lines.forEach` of
`drawTextOnCanvas`: wrap only when the measured line overflows AND the
width is positive, else push the line unchanged. -/
def measuredLineOf (measure : JSStr → Rat) (w : Rat) (line : JSStr) : List JSStr :=
  if measure line > w ∧ w > 0 then wrapHardLine measure w line else [line]

/-- The `measuredLines` array of server.js `drawTextOnCanvas`: hard lines
are obtained by `text.split('\n')`, each processed in order. -/
def measuredLinesServer (measure : JSStr → Rat) (w : Rat) (text : JSStr) :
    List JSStr :=
  ((splitChar '\n' text).map (measuredLineOf measure w)).flatten

/-- part_002 `drawElementOnCanvas` lines 322-330: hard-line selection per
`whiteSpace` mode.  Under `nowrap` the whole text is a single entry. -/
def linesFor002 (whiteSpace : JSStr) (text : JSStr) : List JSStr :=
  if whiteSpace = ("pre").data ∨ whiteSpace = ("pre-wrap").data then
    splitChar '\n' text
  else if whiteSpace = ("nowrap").data then [text]
  else splitChar '\n' text

/-- part_002 lines 336-360: `nowrap` and `pre` push each entry unchanged;
other modes run the greedy wrap against the content width. -/
def measuredLine002Of (whiteSpace : JSStr) (measure : JSStr → Rat) (w : Rat)
    (line : JSStr) : List JSStr :=
  if whiteSpace = ("nowrap").data ∨ whiteSpace = ("pre").data then [line]
  else measuredLineOf measure w line

/-- The `measuredLines` array of part_002 `drawElementOnCanvas`. -/
def measuredLines002 (whiteSpace : JSStr) (measure : JSStr → Rat) (w : Rat)
    (text : JSStr) : List JSStr :=
  ((linesFor002 whiteSpace text).map (measuredLine002Of whiteSpace measure w)).flatten

/-- A concrete measure used for witnesses: width = character count. -/
def lenMeasure (l : JSStr) : Rat := l.length

/-! ## Element compositing loop (server.js lines 428-451, part_002 lines
656-691).  Only the style field the claims depend on — `fontFamily` — is
tracked; the merge `{...defaultStyle, ...element.style}` keeps the element
value when present, else the default, and `drawTextOnCanvas` destructures
`fontFamily = 'sans-serif'` when neither is set. -/

/-- One entry of the config's `elements` array (modelled fields only). -/
structure ElementSpec where
  query : Option JSStr
  useR2Font : Bool
  fontFamily : Option JSStr
deriving Repr, DecidableEq

/-- One text-drawing call issued by the element loop. -/
structure DrawCmd where
  query : JSStr
  text : JSStr
  fontFamily : JSStr
deriving Repr, DecidableEq

/-- Association-list lookup for query parameters. -/
def lookupParam (params : List (JSStr × JSStr)) (k : JSStr) : Option JSStr :=
  (params.find? (fun p => p.1 == k)).map (fun p => p.2)

/-- server.js lines 438-441 then draw: `style.fontFamily = 'CustomR2Font'`
whenever `element.useR2Font && fontSettings.mode === 'r2'` — with no check
that the font actually loaded. -/
def effFamilyServer (useR2 : Bool) (mode : Option JSStr)
    (merged : Option JSStr) : JSStr :=
  if useR2 ∧ mode = some ("r2").data then ("CustomR2Font").data
  else merged.getD ("sans-serif").data

/-- part_002 lines 671-678: the override additionally requires
`r2FontAvailable`; otherwise the declared family is kept. -/
def effFamily002 (useR2 : Bool) (mode : Option JSStr) (r2Avail : Bool)
    (merged : Option JSStr) : JSStr :=
  if useR2 ∧ mode = some ("r2").data ∧ r2Avail then ("CustomR2Font").data
  else merged.getD ("sans-serif").data

/-- The element filter (server.js lines 429-431):
`el?.query && queryParams.hasOwnProperty(el.query)`. -/
def elementSelected (params : List (JSStr × JSStr)) (el : ElementSpec) : Bool :=
  match el.query with
  | some q => !q.isEmpty && (lookupParam params q).isSome
  | none => false

/-- The `textElements.forEach` body of server.js: compute the merged
style, decode the text, skip the element when the decoded text is falsy
(`if (!text) return`), else draw.  `.error ()` models the `URIError`
thrown by `decodeURIComponent` escaping the loop. -/
def drawLoopServer (mode : Option JSStr) (defFam : Option JSStr)
    (params : List (JSStr × JSStr)) :
    List ElementSpec → List DrawCmd → Except Unit (List DrawCmd)
  | [], acc => .ok acc
  | el :: rest, acc =>
    let fam := effFamilyServer el.useR2Font mode (el.fontFamily.orElse fun _ => defFam)
    match decodeText (lookupParam params (el.query.getD [])) with
    | none => .error ()
    | some t =>
      drawLoopServer mode defFam params rest
        (if t.isEmpty then acc else acc ++ [⟨el.query.getD [], t, fam⟩])

/-- The draw commands produced by the server.js element loop. -/
def elementDrawsServer (mode : Option JSStr) (defFam : Option JSStr)
    (params : List (JSStr × JSStr)) (elements : List ElementSpec) :
    Except Unit (List DrawCmd) :=
  drawLoopServer mode defFam params (elements.filter (elementSelected params)) []

/-- The `textElements.forEach` body of part_002 (identical to server.js
except for the `r2FontAvailable` guard on the family override). -/
def drawLoop002 (mode : Option JSStr) (defFam : Option JSStr) (r2Avail : Bool)
    (params : List (JSStr × JSStr)) :
    List ElementSpec → List DrawCmd → Except Unit (List DrawCmd)
  | [], acc => .ok acc
  | el :: rest, acc =>
    let fam := effFamily002 el.useR2Font mode r2Avail (el.fontFamily.orElse fun _ => defFam)
    match decodeText (lookupParam params (el.query.getD [])) with
    | none => .error ()
    | some t =>
      drawLoop002 mode defFam r2Avail params rest
        (if t.isEmpty then acc else acc ++ [⟨el.query.getD [], t, fam⟩])

/-- The draw commands produced by the part_002 element loop. -/
def elementDraws002 (mode : Option JSStr) (defFam : Option JSStr)
    (r2Avail : Bool) (params : List (JSStr × JSStr))
    (elements : List ElementSpec) : Except Unit (List DrawCmd) :=
  drawLoop002 mode defFam r2Avail params (elements.filter (elementSelected params)) []

/-! ## Render orchestrator (the `app.get('/*')` handler; server.js lines
307-482, part_002 lines 519-731, part_001 lines 760 onward).  External
effects are supplied as an oracle record; a `FetchResult` is a settled
HTTP response. -/

/-- A settled HTTP response from `fetch`. -/
structure FetchResult where
  ok : Bool
  status : Nat
  body : List Nat
deriving Repr, DecidableEq

/-- Config JSON after destructuring (modelled fields only):
`imageSize`, `elements`, `defaultStyle.fontFamily`, `fontSettings.mode`,
`fontSettings.r2FontFilename`. -/
structure ImageSizeCfg where
  width : Option Nat
  height : Option Nat
deriving Repr, DecidableEq

structure Config where
  imageSize : ImageSizeCfg
  elements : List ElementSpec
  defaultFontFamily : Option JSStr
  fontMode : Option JSStr
  r2FontFilename : Option JSStr
deriving Repr, DecidableEq

/-- Natural dimensions of the decoded base image. -/
structure NaturalImage where
  width : Nat
  height : Nat
deriving Repr, DecidableEq

/-- Which stage of the try-block threw (the Korean messages are not
modelled). -/
inductive RenderError where
  | malformedPath
  | configFetchFailed (status : Nat)
  | imageFetchFailed (status : Nat)
  | configParseFailed
  | imageDecodeFailed
  | textDecodeFailed
deriving Repr, DecidableEq

/-- The fully rendered (pre-encoding) canvas state. -/
structure RenderOut where
  width : Nat
  height : Nat
  image : NaturalImage
  draws : List DrawCmd
deriving Repr, DecidableEq

/-- An HTTP response as produced by the handler. -/
structure Response where
  status : Nat
  contentType : Option JSStr
  body : List Nat
deriving Repr, DecidableEq

/-- External collaborators of one request, as an oracle record.
`fetch` maps a URL to its settled response; `parseConfig` models
`res.json()`; `decodeImage` models `loadImage`; `fontOk` is whether the
`registerFontFromUrl` promise fulfilled; `encodeCanvas` models
`canvas.toBuffer('image/webp')`; `errorImage` models
`createErrorImage(message)` of server.js. -/
structure Oracles where
  fetch : JSStr → FetchResult
  parseConfig : List Nat → Option Config
  decodeImage : List Nat → Option NaturalImage
  fontOk : Bool
  encodeCanvas : RenderOut → List Nat
  errorImage : RenderError → List Nat
  envBaseUrl : Option JSStr

/-- JS `a || b` for an optional number: `undefined` and `0` are falsy. -/
def jsOrN (v : Option Nat) (d : Nat) : Nat :=
  match v with
  | some n => if n = 0 then d else n
  | none => d

/-- server.js line 385 / part_002 line 601: `imageSize.width || 800`. -/
def widthServer (c : ImageSizeCfg) : Nat := jsOrN c.width 800

/-- server.js line 386 / part_002 line 602: `imageSize.height || 600`. -/
def heightServer (c : ImageSizeCfg) : Nat := jsOrN c.height 600

/-- part_001 line 829: `imageSize.width || image.width || 800`. -/
def widthLegacy (c : ImageSizeCfg) (img : NaturalImage) : Nat :=
  jsOrN c.width (jsOrN (some img.width) 800)

/-- part_001 line 830: `imageSize.height || image.height || 600`. -/
def heightLegacy (c : ImageSizeCfg) (img : NaturalImage) : Nat :=
  jsOrN c.height (jsOrN (some img.height) 600)

/-- The config URL the handler fetches for a resolved path. -/
def configUrlOf (q : List (JSStr × JSStr)) (o : Oracles) (info : PathInfo) : JSStr :=
  buildResourceUrl (chooseBaseUrl (lookupParam q ("baseUrl").data) o.envBaseUrl)
    info.bucketName info.configKey

/-- The image URL the handler fetches for a resolved path. -/
def imageUrlOf (q : List (JSStr × JSStr)) (o : Oracles) (info : PathInfo) : JSStr :=
  buildResourceUrl (chooseBaseUrl (lookupParam q ("baseUrl").data) o.envBaseUrl)
    info.bucketName info.imagePath

/-- The query parameters forwarded to the element loop: every key except
the reserved `baseUrl` (server.js lines 418-426). -/
def textParamsOf (q : List (JSStr × JSStr)) : List (JSStr × JSStr) :=
  q.filter (fun p => p.1 != ("baseUrl").data)

/-- The try-block of the server.js wildcard handler after the special-path
short-circuits: resolve the path, fetch config and image, parse both,
compute the surface size, run the element loop.  Any thrown error is the
`Except.error`.  The font promise (`registerFontFromUrl(...).catch(...)`)
is awaited but its outcome is discarded, so `o.fontOk` is never read. -/
def pipelineServer (pathname : JSStr) (q : List (JSStr × JSStr)) (o : Oracles) :
    Except RenderError RenderOut :=
  match extractPathInfo pathname with
  | .error _ => .error .malformedPath
  | .ok info =>
    let configRes := o.fetch (configUrlOf q o info)
    let imageRes := o.fetch (imageUrlOf q o info)
    if configRes.ok = false then .error (.configFetchFailed configRes.status)
    else if imageRes.ok = false then .error (.imageFetchFailed imageRes.status)
    else
      match o.parseConfig configRes.body with
      | none => .error .configParseFailed
      | some config =>
        match o.decodeImage imageRes.body with
        | none => .error .imageDecodeFailed
        | some image =>
          match elementDrawsServer config.fontMode config.defaultFontFamily
              (textParamsOf q) config.elements with
          | .error _ => .error .textDecodeFailed
          | .ok draws =>
            .ok ⟨widthServer config.imageSize, heightServer config.imageSize,
              image, draws⟩

/-- part_002 lines 604-608: the derived font path
`configDir + '/fonts/' + r2FontFilename` when mode is `'r2'` and the
filename is truthy. -/
def fontPathOf (config : Config) (info : PathInfo) : Option JSStr :=
  if config.fontMode = some ("r2").data ∧
      config.r2FontFilename ≠ none ∧ config.r2FontFilename ≠ some [] then
    config.r2FontFilename.map (fun fn => info.configDir ++ ("/fonts/").data ++ fn)
  else none

/-- The try-block of the part_002 wildcard handler: as the server.js one,
but the element loop receives `r2FontAvailable` (part_002 line 627),
true only when a font URL was derived and the font promise fulfilled. -/
def pipeline002 (pathname : JSStr) (q : List (JSStr × JSStr)) (o : Oracles) :
    Except RenderError RenderOut :=
  match extractPathInfo pathname with
  | .error _ => .error .malformedPath
  | .ok info =>
    let configRes := o.fetch (configUrlOf q o info)
    let imageRes := o.fetch (imageUrlOf q o info)
    if configRes.ok = false then .error (.configFetchFailed configRes.status)
    else if imageRes.ok = false then .error (.imageFetchFailed imageRes.status)
    else
      match o.parseConfig configRes.body with
      | none => .error .configParseFailed
      | some config =>
        match o.decodeImage imageRes.body with
        | none => .error .imageDecodeFailed
        | some image =>
          let r2Avail := (fontPathOf config info).isSome && o.fontOk
          match elementDraws002 config.fontMode config.defaultFontFamily
              r2Avail (textParamsOf q) config.elements with
          | .error _ => .error .textDecodeFailed
          | .ok draws =>
            .ok ⟨widthServer config.imageSize, heightServer config.imageSize,
              image, draws⟩

/-- The reserved paths that short-circuit to an empty 404 before path
resolution (both handlers, e.g. server.js lines 327-340). -/
def isIgnoredPath (p : JSStr) : Bool :=
  ("/favicon").data.isPrefixOf p || p == ("/robots.txt").data ||
    ("/.well-known").data.isPrefixOf p

/-- The server.js wildcard handler: special paths, then the try-block; the
catch (lines 470-481) answers 500 with `createErrorImage(error.message)`
and `Content-Type: image/webp`.  The `/health` JSON body is not
modelled. -/
def handleServer (pathname : JSStr) (q : List (JSStr × JSStr)) (o : Oracles) :
    Response :=
  if pathname == ("/health").data then ⟨200, some ("application/json").data, []⟩
  else if isIgnoredPath pathname then ⟨404, none, []⟩
  else
    match pipelineServer pathname q o with
    | .ok r => ⟨200, some ("image/webp").data, o.encodeCanvas r⟩
    | .error e => ⟨500, some ("image/webp").data, o.errorImage e⟩

/-- The fixed fallback URL of the part_002 catch (line 722). -/
def errorImageUrl002 : JSStr :=
  ("https://pub-45268c10da744ce58e66952c8d0c50ba.r2.dev/404.webp").data

/-- The part_002 wildcard handler: the catch (lines 716-730) fetches the
fallback image and answers 500 with whatever body that fetch returned —
without checking `ok` or that the body is non-empty. -/
def handle002 (pathname : JSStr) (q : List (JSStr × JSStr)) (o : Oracles) :
    Response :=
  if pathname == ("/health").data then ⟨200, some ("application/json").data, []⟩
  else if isIgnoredPath pathname then ⟨404, none, []⟩
  else
    match pipeline002 pathname q o with
    | .ok r => ⟨200, some ("image/webp").data, o.encodeCanvas r⟩
    | .error _ => ⟨500, some ("image/webp").data, (o.fetch errorImageUrl002).body⟩

/-! ## Font Cache (`registerFontFromUrl`, server.js lines 40-89; part_002
lines 41-102 is the same function with extra logging).  Process-wide state
is the `registeredFonts` set plus the on-disk cache directory; the MD5
hash, `new URL(...)` parsing, the font fetch and the backend registration
outcome are oracle inputs. -/

/-- Process-wide font state: the `registeredFonts` set and the cache
directory contents (file name to bytes). -/
structure FontState where
  registered : List JSStr
  cache : List (JSStr × List Nat)
deriving Repr, DecidableEq

/-- Kinds of network/disk/backend work the function can perform. -/
inductive FontWork where
  | netFetch
  | diskRead
  | diskWrite
  | backendRegister
deriving Repr, DecidableEq

/-- External collaborators of `registerFontFromUrl`: `urlPathname u` is
`new URL(u).pathname` (`none` when the constructor throws), `md5hex` the
hash used for the cache-file name, `fetchFont` the settled font download
(`none` models a network rejection), `registerOk` the outcome of
`GlobalFonts.registerFromPath`. -/
structure FontOracle where
  urlPathname : JSStr → Option JSStr
  md5hex : JSStr → JSStr
  fetchFont : JSStr → Option FetchResult
  registerOk : Bool

/-- `path.extname(p)`: the suffix of the last path segment from its last
dot; empty for dotless names and leading-dot-only names. -/
def extname (p : JSStr) : JSStr :=
  let base := (splitChar '/' p).getLastD []
  match splitChar '.' base with
  | [] => []
  | [_] => []
  | parts =>
    if (parts.headD []).isEmpty ∧ parts.length = 2 then []
    else '.' :: parts.getLastD []

/-- `registerFontFromUrl(fontUrl, fontFamily)`: returns the updated
process state, the call outcome (`.error ()` models a thrown error) and
the list of network/disk/backend operations performed. -/
def registerFontFromUrl (fo : FontOracle) (st : FontState)
    (fontUrl fontFamily : JSStr) :
    FontState × Except Unit Unit × List FontWork :=
  if fontFamily ∈ st.registered then (st, .ok (), [])
  else
    match fo.urlPathname fontUrl with
    | none => (st, .error (), [])
    | some urlPath =>
      let ext0 := extname urlPath
      let ext := if ext0.isEmpty then (".ttf").data else ext0
      let cacheFile := fo.md5hex fontUrl ++ ext
      match (st.cache.find? (fun e => e.1 == cacheFile)).map (fun e => e.2) with
      | some _ =>
        if fo.registerOk then
          ({ st with registered := fontFamily :: st.registered }, .ok (),
            [.diskRead, .backendRegister])
        else (st, .error (), [.diskRead, .backendRegister])
      | none =>
        match fo.fetchFont fontUrl with
        | none => (st, .error (), [.netFetch])
        | some r =>
          if r.ok = false then (st, .error (), [.netFetch])
          else if r.body.isEmpty then (st, .error (), [.netFetch])
          else
            let st1 := { st with cache := (cacheFile, r.body) :: st.cache }
            if fo.registerOk then
              ({ st1 with registered := fontFamily :: st1.registered }, .ok (),
                [.netFetch, .diskWrite, .backendRegister])
            else (st1, .error (), [.netFetch, .diskWrite, .backendRegister])

/-! ## Concrete fixtures used by witnesses and counterexamples. -/

/-- Config with no `imageSize` and no elements. -/
def cfgNoSize : Config :=
  ⟨⟨none, none⟩, [], none, none, none⟩

/-- Config requesting the R2 font for one element bound to query `txt`
whose style declares family `Arial`. -/
def cfgR2 : Config :=
  ⟨⟨some 100, some 100⟩,
    [⟨some ("txt").data, true, some ("Arial").data⟩],
    none, some ("r2").data, some ("f.ttf").data⟩

/-- Oracle: every fetch succeeds, config parses to `cfgNoSize`, the base
image decodes to 1024 by 768. -/
def oracleNoSize : Oracles :=
  ⟨fun _ => ⟨true, 200, [7]⟩, fun _ => some cfgNoSize,
    fun _ => some ⟨1024, 768⟩, true, fun r => [r.width % 256],
    fun _ => [9], none⟩

/-- Oracle: every fetch succeeds, config parses to `cfgR2`, but the font
promise failed (`fontOk = false`). -/
def oracleFontFail : Oracles :=
  ⟨fun _ => ⟨true, 200, [7]⟩, fun _ => some cfgR2,
    fun _ => some ⟨100, 100⟩, false, fun r => [r.width % 256],
    fun _ => [9], none⟩

/-- Oracle for failure cases: every fetch yields a 404 with an empty
body. -/
def oracle404 : Oracles :=
  ⟨fun _ => ⟨false, 404, []⟩, fun _ => none, fun _ => none, false,
    fun r => [r.width % 256], fun _ => [9], none⟩

/-- Concrete oracle for the C9 witness: valid URL, cache miss, successful
download of one byte, successful backend registration. -/
def fontOracleOk : FontOracle :=
  ⟨fun _ => some ("/f.ttf").data, fun _ => ("h").data,
    fun _ => some ⟨true, 200, [1]⟩, true⟩

theorem splitChar_ne_nil (sep : Char) : ∀ s, splitChar sep s ≠ []
  | [] => by simp [splitChar]
  | c :: cs => by
    by_cases h : c = sep
    · simp [splitChar, h]
    · simp only [splitChar, h, if_false]
      cases hs : splitChar sep cs with
      | nil => simp
      | cons g gs => simp

theorem splitChar_of_not_mem {sep : Char} : ∀ {s : List Char}, sep ∉ s →
    splitChar sep s = [s]
  | [], _ => rfl
  | c :: cs, h => by
    have hc : ¬ c = sep := fun hc => h (hc ▸ List.mem_cons_self c cs)
    have hcs : sep ∉ cs := fun hm => h (List.mem_cons_of_mem c hm)
    simp only [splitChar, hc, if_false, splitChar_of_not_mem hcs]

theorem splitChar_append_sep {sep : Char} : ∀ {a : List Char} (t : List Char),
    sep ∉ a → splitChar sep (a ++ sep :: t) = a :: splitChar sep t
  | [], t, _ => by simp [splitChar]
  | c :: a, t, h => by
    have hc : ¬ c = sep := fun hc => h (hc ▸ List.mem_cons_self c a)
    have ha : sep ∉ a := fun hm => h (List.mem_cons_of_mem c hm)
    simp only [List.cons_append, splitChar, hc, if_false, List.append_eq]
    rw [splitChar_append_sep t ha]

/-- Splitting is a left inverse of joining for nonempty lists of
separator-free segments. -/
theorem splitChar_joinChar {sep : Char} : ∀ (l : List (List Char)), l ≠ [] →
    (∀ a ∈ l, sep ∉ a) → splitChar sep (joinChar sep l) = l
  | [], h, _ => absurd rfl h
  | [a], _, hmem => by
    simp only [joinChar]
    exact splitChar_of_not_mem (hmem a (List.mem_singleton_self a))
  | a :: b :: rest, _, hmem => by
    have ha : sep ∉ a := hmem a (List.mem_cons_self _ _)
    have hrec := splitChar_joinChar (b :: rest) (by simp)
      (fun x hx => hmem x (List.mem_cons_of_mem a hx))
    simp only [joinChar, splitChar_append_sep _ ha, hrec]

/-- Every segment produced by `splitChar` is separator-free. -/
theorem not_mem_of_mem_splitChar {sep : Char} : ∀ (s g : List Char),
    g ∈ splitChar sep s → sep ∉ g
  | [], g, hg => by
    simp only [splitChar, List.mem_singleton] at hg
    simp [hg]
  | c :: cs, g, hg => by
    by_cases hc : c = sep
    · rw [splitChar, if_pos hc] at hg
      rcases List.mem_cons.mp hg with h | h
      · simp [h]
      · exact not_mem_of_mem_splitChar cs g h
    · rw [splitChar, if_neg hc] at hg
      cases hs : splitChar sep cs with
      | nil => exact absurd hs (splitChar_ne_nil sep cs)
      | cons g' gs =>
        rw [hs] at hg
        rcases List.mem_cons.mp hg with h | h
        · subst h
          intro hm
          rcases List.mem_cons.mp hm with hm | hm
          · exact hc hm.symm
          · exact not_mem_of_mem_splitChar cs g'
              (hs ▸ List.mem_cons_self g' gs) hm
        · exact not_mem_of_mem_splitChar cs g
            (hs ▸ List.mem_cons_of_mem g' h)

/-- A split produces exactly one more segment than there are separators. -/
theorem splitChar_length (sep : Char) : ∀ s : List Char,
    (splitChar sep s).length = countChar sep s + 1
  | [] => by simp [splitChar, countChar]
  | c :: cs => by
    have ih := splitChar_length sep cs
    by_cases hc : c = sep
    · rw [splitChar, if_pos hc]
      have hcc : (c == sep) = true := by simp [hc]
      simp only [countChar, List.filter, hcc] at ih ⊢
      simp only [List.length_cons]
      omega
    · rw [splitChar, if_neg hc]
      have hcc : (c == sep) = false := by simp [hc]
      cases hs : splitChar sep cs with
      | nil => exact absurd hs (splitChar_ne_nil sep cs)
      | cons g gs =>
        rw [hs] at ih
        simp only [countChar, List.filter, hcc] at ih ⊢
        simp only [List.length_cons] at ih ⊢
        omega

/-! ## Supporting lemmas. -/

theorem pathSegments_wf (parts : List JSStr)
    (h : ∀ p ∈ parts, p ≠ [] ∧ '/' ∉ p) (hne : parts ≠ []) :
    pathSegments ('/' :: joinChar '/' parts) = parts := by
  have h1 : stripLeadingSlash ('/' :: joinChar '/' parts) = joinChar '/' parts := by
    simp [stripLeadingSlash, List.isPrefixOf]
  have h2 : splitChar '/' (joinChar '/' parts) = parts :=
    splitChar_joinChar parts hne (fun a ha => (h a ha).2)
  simp only [pathSegments, h1, h2]
  apply List.filter_eq_self.mpr
  intro a ha
  rcases h a ha with ⟨hne', -⟩
  cases a
  · exact absurd rfl hne'
  · rfl

theorem extractPathInfo_wf (parts : List JSStr)
    (h : ∀ p ∈ parts, p ≠ [] ∧ '/' ∉ p) (hlen : 3 ≤ parts.length) :
    extractPathInfo ('/' :: joinChar '/' parts) =
      .ok ⟨parts.headD [], joinChar '/' (parts.drop 1),
        joinChar '/' ((parts.drop 1).dropLast.dropLast),
        (parts.drop 1).getD ((parts.drop 1).length - 2) [],
        joinChar '/' ((parts.drop 1).dropLast.dropLast) ++ '/' ::
          (parts.drop 1).getD ((parts.drop 1).length - 2) [] ++ (".json").data⟩ := by
  have hne : parts ≠ [] := by
    intro h0
    rw [h0] at hlen
    simp at hlen
  have hseg := pathSegments_wf parts h hne
  have hdlen : (parts.drop 1).length = parts.length - 1 := List.length_drop 1 parts
  have hdrop : parts.drop 1 ≠ [] := by
    intro h0
    rw [h0] at hdlen
    simp at hdlen
    omega
  have hsplit : splitChar '/' (joinChar '/' (parts.drop 1)) = parts.drop 1 :=
    splitChar_joinChar _ hdrop
      (fun a ha => (h a (List.drop_subset 1 parts ha)).2)
  have hc1 : ¬ parts.length < 3 := by omega
  have hc2 : ¬ (parts.drop 1).length < 2 := by omega
  simp only [extractPathInfo, hseg, hsplit, if_neg hc1, if_neg hc2]

/-- Invariant of the greedy-wrap accumulation: every flushed line is a
single (space-free) word or measures within the width, and the same holds
for the pending current line when non-empty. -/
theorem wrapFold_invariant (measure : JSStr → Rat) (w : Rat) :
    ∀ (words : List JSStr) (acc : List JSStr × JSStr),
    (∀ u ∈ words, ' ' ∉ u) →
    (∀ l ∈ acc.1, ' ' ∉ l ∨ measure l ≤ w) →
    (acc.2 = [] ∨ ' ' ∉ acc.2 ∨ measure acc.2 ≤ w) →
    (∀ l ∈ (words.foldl (wrapStep measure w) acc).1, ' ' ∉ l ∨ measure l ≤ w) ∧
    ((words.foldl (wrapStep measure w) acc).2 = [] ∨
      ' ' ∉ (words.foldl (wrapStep measure w) acc).2 ∨
      measure (words.foldl (wrapStep measure w) acc).2 ≤ w)
  | [], acc, _, hout, hcur => by
    rw [List.foldl_nil]
    exact ⟨hout, hcur⟩
  | word :: ws, acc, hwords, hout, hcur => by
    rw [List.foldl_cons]
    have hword : ' ' ∉ word := hwords word (List.mem_cons_self _ _)
    refine wrapFold_invariant measure w ws (wrapStep measure w acc word)
      (fun u hu => hwords u (List.mem_cons_of_mem _ hu)) ?_ ?_
    · intro l hl
      simp only [wrapStep] at hl
      by_cases hif : measure (acc.2 ++ (if acc.2.isEmpty then [] else [' ']) ++ word) > w ∧
          acc.2 ≠ []
      · rw [if_pos hif] at hl
        rcases List.mem_append.mp hl with hmem | hmem
        · exact hout l hmem
        · have : l = acc.2 := List.mem_singleton.mp hmem
          subst this
          rcases hcur with h0 | h0
          · exact absurd h0 hif.2
          · exact h0
      · rw [if_neg hif] at hl
        exact hout l hl
    · simp only [wrapStep]
      by_cases hif : measure (acc.2 ++ (if acc.2.isEmpty then [] else [' ']) ++ word) > w ∧
          acc.2 ≠ []
      · rw [if_pos hif]
        exact Or.inr (Or.inl hword)
      · rw [if_neg hif]
        by_cases hemp : acc.2 = []
        · have : acc.2 ++ (if acc.2.isEmpty then [] else [' ']) ++ word = word := by
            rw [hemp]
            rfl
          rw [this]
          exact Or.inr (Or.inl hword)
        · have hle : measure (acc.2 ++ (if acc.2.isEmpty then [] else [' ']) ++ word) ≤ w := by
            rcases not_and_or.mp hif with h0 | h0
            · exact le_of_not_lt h0
            · exact absurd hemp h0
          exact Or.inr (Or.inr hle)

/-- Every line emitted by `wrapHardLine` is space-free or measures within
the width. -/
theorem wrapHardLine_bound (measure : JSStr → Rat) (w : Rat) (line : JSStr) :
    ∀ l ∈ wrapHardLine measure w line, ' ' ∉ l ∨ measure l ≤ w := by
  intro l hl
  have hwords : ∀ u ∈ splitChar ' ' line, ' ' ∉ u :=
    fun u hu => not_mem_of_mem_splitChar line u hu
  have hinv := wrapFold_invariant measure w (splitChar ' ' line) ([], [])
    hwords (by simp) (Or.inl rfl)
  simp only [wrapHardLine] at hl
  rcases List.mem_append.mp hl with h | h
  · exact hinv.1 l h
  · by_cases hr : ((splitChar ' ' line).foldl (wrapStep measure w) ([], [])).2 = []
    · rw [if_neg (not_not.mpr hr)] at h
      exact absurd h (List.not_mem_nil l)
    · rw [if_pos hr] at h
      have : l = ((splitChar ' ' line).foldl (wrapStep measure w) ([], [])).2 :=
        List.mem_singleton.mp h
      subst this
      rcases hinv.2 with h0 | h0
      · exact absurd h0 hr
      · exact h0

/-- The over-acceptance check: the `drawLoop002` outcome (success or
thrown decode error) does not depend on the R2-availability flag nor on
the draw commands accumulated so far. -/
theorem drawLoop002_isOk_indep (mode defFam : Option JSStr)
    (params : List (JSStr × JSStr)) :
    ∀ (els : List ElementSpec) (a b : Bool) (acc acc' : List DrawCmd),
    (drawLoop002 mode defFam a params els acc).isOk =
      (drawLoop002 mode defFam b params els acc').isOk
  | [], _, _, _, _ => rfl
  | el :: rest, a, b, acc, acc' => by
    simp only [drawLoop002]
    cases decodeText (lookupParam params (el.query.getD [])) with
    | none => rfl
    | some t => exact drawLoop002_isOk_indep mode defFam params rest a b _ _

/-- Every draw command emitted by the server.js element loop carries
non-empty text (elements whose decoded text is falsy are skipped). -/
theorem drawLoopServer_text_ne_nil (mode defFam : Option JSStr)
    (params : List (JSStr × JSStr)) :
    ∀ (els : List ElementSpec) (acc l : List DrawCmd),
    (∀ c ∈ acc, c.text ≠ []) →
    drawLoopServer mode defFam params els acc = .ok l →
    ∀ c ∈ l, c.text ≠ []
  | [], acc, l, hacc, heq => by
    simp only [drawLoopServer] at heq
    cases heq
    exact hacc
  | el :: rest, acc, l, hacc, heq => by
    simp only [drawLoopServer] at heq
    cases hd : decodeText (lookupParam params (el.query.getD [])) with
    | none =>
      rw [hd] at heq
      cases heq
    | some t =>
      rw [hd] at heq
      have heq' : drawLoopServer mode defFam params rest
          (if t.isEmpty then acc
            else acc ++ [⟨el.query.getD [], t,
              effFamilyServer el.useR2Font mode
                (el.fontFamily.orElse fun _ => defFam)⟩]) = .ok l := heq
      refine drawLoopServer_text_ne_nil mode defFam params rest _ l ?_ heq'
      by_cases ht : t.isEmpty
      · rw [if_pos ht]
        exact hacc
      · rw [if_neg ht]
        intro c hc
        rcases List.mem_append.mp hc with h | h
        · exact hacc c h
        · have hcm : c = ⟨el.query.getD [], t,
              effFamilyServer el.useR2Font mode
                (el.fontFamily.orElse fun _ => defFam)⟩ :=
            List.mem_singleton.mp h
          subst hcm
          intro h0
          have ht0 : t = [] := h0
          rw [ht0] at ht
          exact ht rfl

/-- Helper: flattening a map to singletons is the identity. -/
theorem flatten_map_singleton {α : Type} : ∀ (l : List α),
    (l.map (fun a => [a])).flatten = l
  | [] => rfl
  | a :: t => by simp [flatten_map_singleton t]

/-! ## Claims. -/

/-- C1 counterexample: the claim states that `configKey` equals
`folderName + ".json"` with no leading slash when `configDir` is empty,
but on `"/kbd/A/1.webp"` the code resolves `configDir = ""` and
`configKey = "/A.json"` — with a leading slash, since the template
`configDir + "/" + folderName + ".json"` is used unconditionally. -/
theorem c1_counterexample :
    extractPathInfo ("/kbd/A/1.webp").data =
      .ok ⟨("kbd").data, ("A/1.webp").data, [], ("A").data, ("/A.json").data⟩ ∧
    ("/A.json").data ≠ ("A").data ++ (".json").data := by decide

/-- C1 (amended): for every well-formed inbound path (at least 3 nonempty
slash-free segments), resolution returns bucket = first segment, imagePath
= remaining segments joined, configDir = resource segments minus the last
two joined by `/`, folderName = second-to-last segment, and configKey =
configDir + `/` + folderName + `.json` unconditionally (so the key starts
with a slash when configDir is empty); in particular
`resolve("/kbd/A/A/EMO/A/1.webp")` yields bucket `kbd`, imagePath
`A/A/EMO/A/1.webp`, configDir `A/A/EMO`, folderName `A` and configKey
`A/A/EMO/A.json`. -/
theorem c1_resolve_wellFormed (parts : List JSStr)
    (h : ∀ p ∈ parts, p ≠ [] ∧ '/' ∉ p) (hlen : 3 ≤ parts.length) :
    extractPathInfo ('/' :: joinChar '/' parts) =
      .ok ⟨parts.headD [], joinChar '/' (parts.drop 1),
        joinChar '/' ((parts.drop 1).dropLast.dropLast),
        (parts.drop 1).getD ((parts.drop 1).length - 2) [],
        joinChar '/' ((parts.drop 1).dropLast.dropLast) ++ '/' ::
          (parts.drop 1).getD ((parts.drop 1).length - 2) [] ++ (".json").data⟩ ∧
    extractPathInfo ("/kbd/A/A/EMO/A/1.webp").data =
      .ok ⟨("kbd").data, ("A/A/EMO/A/1.webp").data, ("A/A/EMO").data,
        ("A").data, ("A/A/EMO/A.json").data⟩ :=
  ⟨extractPathInfo_wf parts h hlen, by decide⟩

/-- C1 witness: the amended theorem applied to the concrete segment list
`["kbd","A","B","c.png"]`. -/
theorem c1_witness :
    extractPathInfo ('/' :: joinChar '/'
        [("kbd").data, ("A").data, ("B").data, ("c.png").data]) =
      .ok ⟨[("kbd").data, ("A").data, ("B").data, ("c.png").data].headD [],
        joinChar '/' ([("kbd").data, ("A").data, ("B").data, ("c.png").data].drop 1),
        joinChar '/' (([("kbd").data, ("A").data, ("B").data,
          ("c.png").data].drop 1).dropLast.dropLast),
        ([("kbd").data, ("A").data, ("B").data, ("c.png").data].drop 1).getD
          (([("kbd").data, ("A").data, ("B").data, ("c.png").data].drop 1).length - 2) [],
        joinChar '/' (([("kbd").data, ("A").data, ("B").data,
            ("c.png").data].drop 1).dropLast.dropLast) ++ '/' ::
          ([("kbd").data, ("A").data, ("B").data, ("c.png").data].drop 1).getD
            (([("kbd").data, ("A").data, ("B").data,
              ("c.png").data].drop 1).length - 2) [] ++ (".json").data⟩ :=
  (c1_resolve_wellFormed
    [("kbd").data, ("A").data, ("B").data, ("c.png").data]
    (by decide) (by decide)).1

/-- C8: every inbound path with fewer than 3 segments after dropping the
empty ones — equivalently, whose resource sub-path has fewer than 2
segments — makes `extractPathInfo` throw the malformed-path error; it
never returns a default descriptor. -/
theorem c8_malformed_path_fails (p : JSStr)
    (h : (pathSegments p).length < 3 ∨ ((pathSegments p).drop 1).length < 2) :
    extractPathInfo p = .error .tooFewSegments := by
  have h3 : (pathSegments p).length < 3 := by
    rcases h with h | h
    · exact h
    · have := List.length_drop 1 (pathSegments p)
      omega
  simp only [extractPathInfo, if_pos h3]

/-- C8 witness: the path `/kbd/A` has only 2 segments and fails. -/
theorem c8_witness :
    ((pathSegments ("/kbd/A").data).length < 3 ∨
      ((pathSegments ("/kbd/A").data).drop 1).length < 2) ∧
    extractPathInfo ("/kbd/A").data = .error .tooFewSegments :=
  ⟨by decide, c8_malformed_path_fails ("/kbd/A").data (by decide)⟩

/-- C3 counterexample: the claim promises the width bound for every box
and style, but when the content width is `0` (e.g. padding consumes the
whole box) the `w > 0` guard of the code skips wrapping entirely and the
two-word line `"a b"` — not a single space-free word — is emitted at
measured width 3 > 0. -/
theorem c3_counterexample :
    measuredLinesServer lenMeasure 0 ("a b").data = [("a b").data] ∧
    (' ' ∈ ("a b").data) ∧ ¬ lenMeasure ("a b").data ≤ 0 := by decide

/-- C3 (amended): for every measure, every positive content width and
every text, each output line of the default-mode greedy wrap measures at
most the content width or is a single space-free word (so a single word
wider than the box stays one line, the current line being flushed only
when non-empty); when the content width is not positive the wrap is
skipped and hard lines pass through unchanged. -/
theorem c3_wrap_width_bound (measure : JSStr → Rat) (w : Rat) (hw : 0 < w)
    (text : JSStr) :
    ∀ l ∈ measuredLinesServer measure w text, measure l ≤ w ∨ ' ' ∉ l := by
  intro l hl
  simp only [measuredLinesServer] at hl
  rcases List.mem_flatten.mp hl with ⟨s, hs, hls⟩
  rcases List.mem_map.mp hs with ⟨line, hline, rfl⟩
  simp only [measuredLineOf] at hls
  by_cases hif : measure line > w ∧ w > 0
  · rw [if_pos hif] at hls
    rcases wrapHardLine_bound measure w line l hls with h | h
    · exact Or.inr h
    · exact Or.inl h
  · rw [if_neg hif] at hls
    have : l = line := List.mem_singleton.mp hls
    subst this
    rcases not_and_or.mp hif with h | h
    · exact Or.inl (le_of_not_lt h)
    · exact absurd hw h

/-- C3 witness: wrapping `"aa bb cc dddd"` at width 10 under the
character-count measure emits `"aa bb cc"`, which satisfies the bound. -/
theorem c3_witness :
    (0 : Rat) < 10 ∧
    ("aa bb cc").data ∈ measuredLinesServer lenMeasure 10 ("aa bb cc dddd").data ∧
    (lenMeasure ("aa bb cc").data ≤ 10 ∨ ' ' ∉ ("aa bb cc").data) :=
  ⟨by decide, by decide,
    c3_wrap_width_bound lenMeasure 10 (by decide) ("aa bb cc dddd").data
      ("aa bb cc").data (by decide)⟩

/-- C4 counterexample: in `nowrap` mode the code does not split at
newlines (`lines = [text]`), so the text `"a\nb"` with one newline yields
one output line, not `1 + 1` as the claim requires. -/
theorem c4_counterexample :
    measuredLines002 ("nowrap").data lenMeasure 100 ("a\nb").data =
      [("a\nb").data] ∧
    countChar '\n' ("a\nb").data = 1 ∧
    (measuredLines002 ("nowrap").data lenMeasure 100 ("a\nb").data).length ≠
      1 + 1 := by decide

/-- C4 (amended): under `nowrap` the whole text — newlines included — is
exactly one output line (a text with k newlines yields 1 line, not k+1);
it is under `pre` that the text is split at newline boundaries with each
hard line one output line, so k newlines yield k+1 output lines. -/
theorem c4_nowrap_single_line (measure : JSStr → Rat) (w : Rat) (text : JSStr) :
    measuredLines002 ("nowrap").data measure w text = [text] ∧
    measuredLines002 ("pre").data measure w text = splitChar '\n' text ∧
    (measuredLines002 ("pre").data measure w text).length =
      countChar '\n' text + 1 := by
  have h1 : measuredLines002 ("nowrap").data measure w text = [text] := by
    simp only [measuredLines002, linesFor002, measuredLine002Of,
      if_neg (by decide : ¬ (("nowrap").data = ("pre").data ∨
        ("nowrap").data = ("pre-wrap").data)),
      if_pos (by decide : ("nowrap").data = ("nowrap").data),
      if_pos (Or.inl (by decide : ("nowrap").data = ("nowrap").data))]
    rfl
  have h2 : measuredLines002 ("pre").data measure w text = splitChar '\n' text := by
    simp only [measuredLines002, linesFor002, measuredLine002Of,
      if_pos (Or.inl (by decide : ("pre").data = ("pre").data)),
      if_pos (Or.inr (by decide : ("pre").data = ("pre").data))]
    exact flatten_map_singleton (splitChar '\n' text)
  exact ⟨h1, h2, by rw [h2, splitChar_length]⟩

/-- C5 counterexample: with a config carrying no `imageSize` and a base
image whose natural size is 1024 by 768, the server.js pipeline renders an
800 by 600 surface — the fixed fallback, not the image's natural
dimensions as the claim requires. -/
theorem c5_counterexample :
    pipelineServer ("/kbd/A/B/c.webp").data [] oracleNoSize =
      .ok ⟨800, 600, ⟨1024, 768⟩, []⟩ ∧
    (800 : Nat) ≠ 1024 ∧ (600 : Nat) ≠ 768 := by decide

/-- C5 (amended): the surface dimensions equal the config's `imageSize`
when present (and nonzero) in every variant; when `imageSize` is absent,
only the legacy part_001 variant falls back to the base image's natural
dimensions (then to 800 by 600 when those are zero), while server.js and
part_002 use the fixed 800 by 600 directly, never consulting the image. -/
theorem c5_surface_dimensions (cw ch : Option Nat) (iw ih n : Nat) :
    (cw = some n → n ≠ 0 →
      widthServer ⟨cw, ch⟩ = n ∧ widthLegacy ⟨cw, ch⟩ ⟨iw, ih⟩ = n) ∧
    (cw = none → widthServer ⟨cw, ch⟩ = 800) ∧
    (cw = none → iw ≠ 0 → widthLegacy ⟨cw, ch⟩ ⟨iw, ih⟩ = iw) ∧
    (cw = none → iw = 0 → widthLegacy ⟨cw, ch⟩ ⟨iw, ih⟩ = 800) ∧
    (ch = none → heightServer ⟨cw, ch⟩ = 600) ∧
    (ch = none → ih ≠ 0 → heightLegacy ⟨cw, ch⟩ ⟨iw, ih⟩ = ih) := by
  refine ⟨?_, ?_, ?_, ?_, ?_, ?_⟩
  · intro hc hn
    subst hc
    simp [widthServer, widthLegacy, jsOrN, hn]
  · intro hc
    subst hc
    simp [widthServer, jsOrN]
  · intro hc hn
    subst hc
    simp [widthLegacy, jsOrN, hn]
  · intro hc hn
    subst hc
    simp [widthLegacy, jsOrN, hn]
  · intro hc
    subst hc
    simp [heightServer, jsOrN]
  · intro hc hn
    subst hc
    simp [heightLegacy, jsOrN, hn]

/-- C5 witness: with no configured width, the legacy variant uses the
image's natural width 1024. -/
theorem c5_witness :
    ((none : Option Nat) = none) ∧ (1024 : Nat) ≠ 0 ∧
    widthLegacy ⟨none, none⟩ ⟨1024, 768⟩ = 1024 :=
  ⟨rfl, by decide, (c5_surface_dimensions none none 1024 768 0).2.2.1 rfl (by decide)⟩

/-- C6 counterexample: in the server.js variant an element with
`useR2Font` under `fontSettings.mode = 'r2'` is drawn with family
`CustomR2Font` even though the font promise failed (`fontOk = false` in
the oracle) and the element's style declares family `Arial` — the
declared family is not restored. -/
theorem c6_counterexample :
    pipelineServer ("/kbd/A/B/c.webp").data
        [(("txt").data, ("hi").data)] oracleFontFail =
      .ok ⟨100, 100, ⟨100, 100⟩,
        [⟨("txt").data, ("hi").data, ("CustomR2Font").data⟩]⟩ ∧
    ("CustomR2Font").data ≠ ("Arial").data := by decide

/-- C6 (amended): font failure is non-fatal in both variants — the
server.js pipeline is literally independent of the font outcome, and the
part_002 pipeline succeeds or fails identically for either outcome; and in
the part_002 variant an element whose R2 font is unavailable keeps its
declared font family (falling back to `sans-serif` when none is declared)
— whereas server.js overrides the family with `CustomR2Font` regardless
of the failure, as the counterexample shows. -/
theorem c6_font_failure_nonfatal (u : Bool) (m f : Option JSStr)
    (p : JSStr) (q : List (JSStr × JSStr)) (o : Oracles) :
    effFamily002 u m false f = f.getD ("sans-serif").data ∧
    pipelineServer p q { o with fontOk := false } =
      pipelineServer p q { o with fontOk := true } ∧
    (pipeline002 p q { o with fontOk := false }).isOk =
      (pipeline002 p q { o with fontOk := true }).isOk := by
  refine ⟨?_, rfl, ?_⟩
  · simp [effFamily002]
  · cases hinfo : extractPathInfo p with
    | error e => simp only [pipeline002, hinfo]
    | ok info =>
      simp only [pipeline002, hinfo]
      rw [show configUrlOf q { o with fontOk := false } info =
            configUrlOf q o info from rfl,
          show configUrlOf q { o with fontOk := true } info =
            configUrlOf q o info from rfl,
          show imageUrlOf q { o with fontOk := false } info =
            imageUrlOf q o info from rfl,
          show imageUrlOf q { o with fontOk := true } info =
            imageUrlOf q o info from rfl]
      by_cases hc : (o.fetch (configUrlOf q o info)).ok = false
      · rw [if_pos hc, if_pos hc]
      · rw [if_neg hc, if_neg hc]
        by_cases hi : (o.fetch (imageUrlOf q o info)).ok = false
        · rw [if_pos hi, if_pos hi]
        · rw [if_neg hi, if_neg hi]
          cases hp : o.parseConfig (o.fetch (configUrlOf q o info)).body with
          | none => simp only [hp]
          | some config =>
            simp only [hp]
            cases hd : o.decodeImage (o.fetch (imageUrlOf q o info)).body with
            | none => simp only [hd]
            | some image =>
              simp only [hd]
              have hEq : (elementDraws002 config.fontMode config.defaultFontFamily
                    (((fontPathOf config info).isSome : Bool) && false) (textParamsOf q)
                    config.elements).isOk =
                  (elementDraws002 config.fontMode config.defaultFontFamily
                    (((fontPathOf config info).isSome : Bool) && true) (textParamsOf q)
                    config.elements).isOk :=
                drawLoop002_isOk_indep config.fontMode config.defaultFontFamily
                  (textParamsOf q) _ _ _ _ _
              cases hA : elementDraws002 config.fontMode config.defaultFontFamily
                  (((fontPathOf config info).isSome : Bool) && false) (textParamsOf q)
                  config.elements with
              | error eA =>
                rw [hA] at hEq
                cases hB : elementDraws002 config.fontMode config.defaultFontFamily
                    (((fontPathOf config info).isSome : Bool) && true) (textParamsOf q)
                    config.elements with
                | error eB => simp only [hA, hB]
                | ok dB =>
                  rw [hB] at hEq
                  simp [Except.isOk, Except.toBool] at hEq
              | ok dA =>
                rw [hA] at hEq
                cases hB : elementDraws002 config.fontMode config.defaultFontFamily
                    (((fontPathOf config info).isSome : Bool) && true) (textParamsOf q)
                    config.elements with
                | error eB =>
                  rw [hB] at hEq
                  simp [Except.isOk, Except.toBool] at hEq
                | ok dB => simp [Except.isOk, Except.toBool]

/-- C7 counterexample: the underscore parameter decodes to the
whitespace-only string `" "`, which is truthy in JS, so the element is
drawn (`drawTextOnCanvas` is invoked with text `" "`) instead of being
skipped as the claim requires for whitespace-only text. -/
theorem c7_counterexample :
    decodeText (some ("_").data) = some (" ").data ∧
    (" ").data ≠ [] ∧ ((" ").data.all (fun c => c == ' ')) = true ∧
    elementDrawsServer none none [(("txt").data, ("_").data)]
        [⟨some ("txt").data, false, none⟩] =
      .ok [⟨("txt").data, (" ").data, ("sans-serif").data⟩] := by decide

/-- C7 (amended): the element loop skips exactly the elements whose
decoded text is the empty string (`if (!text) return`), and the skip is
not an error — every draw command that is emitted carries non-empty text,
but whitespace-only non-empty text is drawn, not skipped. -/
theorem c7_empty_text_skipped (mode defFam : Option JSStr)
    (params : List (JSStr × JSStr)) (els : List ElementSpec)
    (l : List DrawCmd)
    (h : elementDrawsServer mode defFam params els = .ok l) :
    ∀ c ∈ l, c.text ≠ [] :=
  drawLoopServer_text_ne_nil mode defFam params
    (els.filter (elementSelected params)) [] l
    (fun c hc => absurd hc (List.not_mem_nil c)) h

/-- C7 witness: with one element whose parameter decodes to the empty
string (skipped, no error) and one with text `"x"`, the loop succeeds and
the single emitted command has non-empty text. -/
theorem c7_witness :
    elementDrawsServer none none
        [(("a").data, []), (("b").data, ("x").data)]
        [⟨some ("a").data, false, none⟩, ⟨some ("b").data, false, none⟩] =
      .ok [⟨("b").data, ("x").data, ("sans-serif").data⟩] ∧
    (⟨("b").data, ("x").data, ("sans-serif").data⟩ : DrawCmd).text ≠ [] :=
  ⟨by decide,
    c7_empty_text_skipped none none
      [(("a").data, []), (("b").data, ("x").data)]
      [⟨some ("a").data, false, none⟩, ⟨some ("b").data, false, none⟩]
      [⟨("b").data, ("x").data, ("sans-serif").data⟩] (by decide)
      ⟨("b").data, ("x").data, ("sans-serif").data⟩ (by decide)⟩

/-- C2 counterexample: in the part_002 variant the catch handler answers
with whatever the fallback-URL fetch returned, without validation; when
that fetch yields an empty body (here a 404 with no content) the 500
response body is empty — not a decodable placeholder image, contradicting
"never an empty body". -/
theorem c2_counterexample :
    (handle002 ("/x").data [] oracle404).status = 500 ∧
    (handle002 ("/x").data [] oracle404).body = [] := by decide

/-- C2 (amended): on the wildcard endpoint, a failure at any stage
(malformed path, failed config fetch, failed image fetch, config parse
failure, image decode failure) always produces an HTTP 500 — never a 2xx;
in the server.js variant the body is the locally synthesized error-image
encoding, while in the part_002 variant the body is exactly the bytes
fetched from the fixed fallback URL, which is a decodable non-empty image
only when that upstream fetch returns one. -/
theorem c2_failure_responses (p : JSStr) (q : List (JSStr × JSStr)) (o : Oracles)
    (hh : p ≠ ("/health").data) (hi : isIgnoredPath p = false) :
    ((pipelineServer p q o).isOk = false →
      ∃ e, pipelineServer p q o = .error e ∧
        handleServer p q o = ⟨500, some ("image/webp").data, o.errorImage e⟩) ∧
    ((pipeline002 p q o).isOk = false →
      handle002 p q o = ⟨500, some ("image/webp").data,
        (o.fetch errorImageUrl002).body⟩) ∧
    (∀ pe, extractPathInfo p = .error pe →
      (pipelineServer p q o).isOk = false ∧ (pipeline002 p q o).isOk = false) ∧
    (∀ info, extractPathInfo p = .ok info →
      ((o.fetch (configUrlOf q o info)).ok = false ∨
        (o.fetch (imageUrlOf q o info)).ok = false ∨
        o.parseConfig (o.fetch (configUrlOf q o info)).body = none ∨
        o.decodeImage (o.fetch (imageUrlOf q o info)).body = none) →
      (pipelineServer p q o).isOk = false ∧ (pipeline002 p q o).isOk = false) := by
  have hbe : (p == ("/health").data) = false := beq_eq_false_iff_ne.mpr hh
  refine ⟨?_, ?_, ?_, ?_⟩
  · intro hfail
    cases hres : pipelineServer p q o with
    | ok r => rw [hres] at hfail; simp [Except.isOk, Except.toBool] at hfail
    | error e =>
      refine ⟨e, rfl, ?_⟩
      simp [handleServer, hbe, hi, hres]
  · intro hfail
    cases hres : pipeline002 p q o with
    | ok r => rw [hres] at hfail; simp [Except.isOk, Except.toBool] at hfail
    | error e => simp [handle002, hbe, hi, hres]
  · intro pe hpe
    constructor
    · simp [pipelineServer, hpe, Except.isOk, Except.toBool]
    · simp [pipeline002, hpe, Except.isOk, Except.toBool]
  · intro info hinfo hdisj
    constructor
    · simp only [pipelineServer, hinfo]
      rcases hdisj with hx | hx | hx | hx
      · simp [hx, Except.isOk, Except.toBool]
      · by_cases hco : (o.fetch (configUrlOf q o info)).ok = false
        · simp [hco, Except.isOk, Except.toBool]
        · simp [hco, hx, Except.isOk, Except.toBool]
      · by_cases hco : (o.fetch (configUrlOf q o info)).ok = false
        · simp [hco, Except.isOk, Except.toBool]
        · by_cases hio : (o.fetch (imageUrlOf q o info)).ok = false
          · simp [hco, hio, Except.isOk, Except.toBool]
          · simp [hco, hio, hx, Except.isOk, Except.toBool]
      · by_cases hco : (o.fetch (configUrlOf q o info)).ok = false
        · simp [hco, Except.isOk, Except.toBool]
        · by_cases hio : (o.fetch (imageUrlOf q o info)).ok = false
          · simp [hco, hio, Except.isOk, Except.toBool]
          · cases hp : o.parseConfig (o.fetch (configUrlOf q o info)).body with
            | none => simp [hco, hio, hp, Except.isOk, Except.toBool]
            | some config => simp [hco, hio, hp, hx, Except.isOk, Except.toBool]
    · simp only [pipeline002, hinfo]
      rcases hdisj with hx | hx | hx | hx
      · simp [hx, Except.isOk, Except.toBool]
      · by_cases hco : (o.fetch (configUrlOf q o info)).ok = false
        · simp [hco, Except.isOk, Except.toBool]
        · simp [hco, hx, Except.isOk, Except.toBool]
      · by_cases hco : (o.fetch (configUrlOf q o info)).ok = false
        · simp [hco, Except.isOk, Except.toBool]
        · by_cases hio : (o.fetch (imageUrlOf q o info)).ok = false
          · simp [hco, hio, Except.isOk, Except.toBool]
          · simp [hco, hio, hx, Except.isOk, Except.toBool]
      · by_cases hco : (o.fetch (configUrlOf q o info)).ok = false
        · simp [hco, Except.isOk, Except.toBool]
        · by_cases hio : (o.fetch (imageUrlOf q o info)).ok = false
          · simp [hco, hio, Except.isOk, Except.toBool]
          · cases hp : o.parseConfig (o.fetch (configUrlOf q o info)).body with
            | none => simp [hco, hio, hp, Except.isOk, Except.toBool]
            | some config => simp [hco, hio, hp, hx, Except.isOk, Except.toBool]

/-- C2 witness: the malformed path `/x` against the 404-everywhere oracle
gives the part_002 failure response, whose body is the (here empty) bytes
of the fallback fetch. -/
theorem c2_witness :
    ("/x").data ≠ ("/health").data ∧ isIgnoredPath ("/x").data = false ∧
    (pipeline002 ("/x").data [] oracle404).isOk = false ∧
    handle002 ("/x").data [] oracle404 =
      ⟨500, some ("image/webp").data, (oracle404.fetch errorImageUrl002).body⟩ :=
  ⟨by decide, by decide, by decide,
    (c2_failure_responses ("/x").data [] oracle404 (by decide) (by decide)).2.1
      (by decide)⟩

/-- Helper for C9: a successful call leaves the family registered, and a
failed call leaves the registered set unchanged (the family is added only
after successful registration). -/
theorem registerFont_outcome (fo : FontOracle) (st : FontState) (u fam : JSStr) :
    ((registerFontFromUrl fo st u fam).2.1 = .ok () →
      fam ∈ (registerFontFromUrl fo st u fam).1.registered) ∧
    ((registerFontFromUrl fo st u fam).2.1 = .error () →
      (registerFontFromUrl fo st u fam).1.registered = st.registered) := by
  by_cases h0 : fam ∈ st.registered
  · constructor
    · intro _
      simp [registerFontFromUrl, h0]
    · intro he
      exfalso
      simp [registerFontFromUrl, h0] at he
  · simp only [registerFontFromUrl, if_neg h0]
    cases hp : fo.urlPathname u with
    | none =>
      constructor
      · intro hok
        exact absurd hok (by simp)
      · intro _
        rfl
    | some up =>
      simp only []
      generalize ((st.cache.find? (fun e => e.1 ==
        fo.md5hex u ++ (if (extname up).isEmpty then (".ttf").data
          else extname up))).map (fun e => e.2)) = F
      cases F with
      | some buf =>
        by_cases hr : fo.registerOk
        · constructor
          · intro _
            simp only [if_pos hr]
            exact List.mem_cons_self _ _
          · intro he
            exfalso
            simp [if_pos hr] at he
        · constructor
          · intro hok
            exfalso
            simp [if_neg hr] at hok
          · intro _
            simp only [if_neg hr]
      | none =>
        cases hf : fo.fetchFont u with
        | none =>
          constructor
          · intro hok
            exact absurd hok (by simp)
          · intro _
            rfl
        | some r =>
          by_cases hok0 : r.ok = false
          · constructor
            · intro hok
              exfalso
              simp [if_pos hok0] at hok
            · intro _
              simp only [if_pos hok0]
          · simp only [if_neg hok0]
            by_cases hemp : r.body.isEmpty = true
            · constructor
              · intro hok
                rw [if_pos hemp] at hok
                exact absurd hok (by simp)
              · intro _
                rw [if_pos hemp]
            · rw [if_neg hemp]
              by_cases hr : fo.registerOk
              · constructor
                · intro _
                  simp only [if_pos hr]
                  exact List.mem_cons_self _ _
                · intro he
                  exfalso
                  simp [if_pos hr] at he
              · constructor
                · intro hok
                  exfalso
                  simp [if_neg hr] at hok
                · intro _
                  simp only [if_neg hr]

/-- C9: font registration is at-most-once per family per process.  After a
first call that succeeded, a second call with the same family — under any
oracle, in particular any different URL — returns immediately with the
state unchanged and an empty work list (no network or disk access); a
failed call leaves the registered set unchanged, the family being added
only after successful registration; and a call for an already registered
family is a no-op. -/
theorem c9_register_at_most_once (fo fo2 : FontOracle) (st : FontState)
    (u u2 fam : JSStr) :
    ((registerFontFromUrl fo st u fam).2.1 = .ok () →
      fam ∈ (registerFontFromUrl fo st u fam).1.registered ∧
      registerFontFromUrl fo2 (registerFontFromUrl fo st u fam).1 u2 fam =
        ((registerFontFromUrl fo st u fam).1, .ok (), [])) ∧
    ((registerFontFromUrl fo st u fam).2.1 = .error () →
      (registerFontFromUrl fo st u fam).1.registered = st.registered) ∧
    (fam ∈ st.registered → registerFontFromUrl fo st u fam = (st, .ok (), [])) := by
  have key : ∀ (fo' : FontOracle) (st' : FontState) (u' : JSStr),
      fam ∈ st'.registered →
      registerFontFromUrl fo' st' u' fam = (st', .ok (), []) := by
    intro fo' st' u' hm
    simp [registerFontFromUrl, hm]
  refine ⟨?_, (registerFont_outcome fo st u fam).2, key fo st u⟩
  intro hok
  have hmem := (registerFont_outcome fo st u fam).1 hok
  exact ⟨hmem, key fo2 _ u2 hmem⟩

/-- C9 witness: a successful first registration of `CustomR2Font` from one
URL makes a second call with a different URL return immediately with no
work. -/
theorem c9_witness :
    (registerFontFromUrl fontOracleOk ⟨[], []⟩ ("http://a/f.ttf").data
      ("CustomR2Font").data).2.1 = .ok () ∧
    registerFontFromUrl fontOracleOk
        (registerFontFromUrl fontOracleOk ⟨[], []⟩ ("http://a/f.ttf").data
          ("CustomR2Font").data).1 ("http://b/g.otf").data ("CustomR2Font").data =
      ((registerFontFromUrl fontOracleOk ⟨[], []⟩ ("http://a/f.ttf").data
        ("CustomR2Font").data).1, .ok (), []) :=
  ⟨by decide,
    ((c9_register_at_most_once fontOracleOk fontOracleOk ⟨[], []⟩
      ("http://a/f.ttf").data ("http://b/g.otf").data
      ("CustomR2Font").data).1 (by decide)).2⟩

/-- C10: the resource-URL builder returns
`baseUrl + "/" + bucket + "/" + resourcePath` exactly when the base URL
starts with `http://` or `https://`, and otherwise prefixes `https://`;
and a non-empty caller-supplied `baseUrl` query value is selected verbatim
(no validation) ahead of the environment and default values. -/
theorem c10_buildResourceUrl (base bucket rp : JSStr) (env : Option JSStr)
    (qv : JSStr) (hq : qv ≠ []) :
    ((("http://").data.isPrefixOf base || ("https://").data.isPrefixOf base) = true →
      buildResourceUrl base bucket rp = base ++ '/' :: bucket ++ '/' :: rp) ∧
    ((("http://").data.isPrefixOf base || ("https://").data.isPrefixOf base) = false →
      buildResourceUrl base bucket rp =
        ("https://").data ++ base ++ '/' :: bucket ++ '/' :: rp) ∧
    chooseBaseUrl (some qv) env = qv := by
  refine ⟨?_, ?_, ?_⟩
  · intro h
    simp [buildResourceUrl, h]
  · intro h
    simp [buildResourceUrl, h]
  · cases qv with
    | nil => exact absurd rfl hq
    | cons c cs => simp [chooseBaseUrl, jsOrStr]

/-- C10 witness: a bare host gets the `https://` scheme prefixed, and a
query-supplied base URL is used verbatim. -/
theorem c10_witness :
    ("x.example").data ≠ [] ∧
    buildResourceUrl ("cdn.example").data ("kbd").data ("A/1.webp").data =
      ("https://").data ++ ("cdn.example").data ++ '/' :: ("kbd").data ++
        '/' :: ("A/1.webp").data ∧
    chooseBaseUrl (some ("x.example").data) none = ("x.example").data :=
  ⟨by decide,
    (c10_buildResourceUrl ("cdn.example").data ("kbd").data ("A/1.webp").data
      none ("x.example").data (by decide)).2.1 (by decide),
    (c10_buildResourceUrl ("cdn.example").data ("kbd").data ("A/1.webp").data
      none ("x.example").data (by decide)).2.2⟩
